import Mathlib

/-!
Shallow embedding of the core data transforms of the btbwgstool /
btbgenietool repository (src/btbwgstool/gui.py, src/btbgenietool/gui.py),
with theorems settling the frozen specification claims.

DataFrames are modelled as lists of records; joins, filters, groupby and
sorts follow the pandas/geopandas semantics of the calls in the source.
Coordinates are integers (the source uses a fixed projected CRS; none of
the claims depends on fractional coordinates), and missing values (NaN)
are `Option`.
-/

/-- A 2-D point in the projected coordinate system. -/
structure Pt where
  px : Int
  py : Int
deriving DecidableEq, Repr

/-- One row of the samples table (`self.cent` / `self.sub` in gui.py).
The field `clade` holds the value of the currently selected clade-level
column (e.g. `snp3`); `geomEmpty` models an empty geometry, and `x`, `y`
the point coordinates when the geometry is not empty. -/
structure Sample where
  Animal_ID : String
  HERD_NO : String
  Species : String
  clade : String
  County : String
  x : Int
  y : Int
  geomEmpty : Bool
deriving DecidableEq, Repr

/-- One row of the movement table (`self.moves` in btbwgstool gui.py). -/
structure MoveRow where
  tag : String
  move_to : String
  move_date : Nat
deriving DecidableEq, Repr

/-- One row of the land-parcel centroid table (`self.lpis_cent`):
herd number key and centroid geometry. -/
structure CentRow where
  SPH_HERD_N : String
  cx : Int
  cy : Int
deriving DecidableEq, Repr

/-- A line segment (shapely `LineString` with two coordinates). -/
abbrev Seg := Pt × Pt

/-- The movement DataFrame slice seen by `get_coords_data`: its geometry
column, plus the `P2` column which the function itself writes into the
frame (`df['P2'] = df.geometry.shift(-1)`).  `P2 = none` models a frame
that does not have the column yet. -/
structure MovesDF where
  geometry : List Pt
  P2 : Option (List (Option Pt))
deriving DecidableEq, Repr

/-- Embedding of `df.geometry.shift(-1)`: each position takes the next
row's geometry, the last becomes NaN. -/
def shiftNeg1 (g : List Pt) : List (Option Pt) :=
  g.tail.map some ++ [none]

/-- Embedding of `get_coords_data` (btbwgstool gui.py:1368-1372, identical
in btbgenietool gui.py:1138-1142):

    df['P2'] = df.geometry.shift(-1)
    coords = df[:-1].apply(lambda x: LineString([x.geometry,x.P2]),1)
    return coords

The returned pair is (the frame after the `P2` column assignment, the
coords).  Pairing row `i` (for `i < n-1`) with its shifted successor is
`zip geometry geometry.tail`. -/
def get_coords_data (df : MovesDF) : MovesDF × List Seg :=
  let df2 : MovesDF := { geometry := df.geometry, P2 := some (shiftNeg1 df.geometry) }
  (df2, df.geometry.zip df.geometry.tail)

/-- Embedding of the GeoPandas coordinate indexer `df.cx[xmin:xmax, ymin:ymax]`
used by `App.plot_in_region` (btbwgstool gui.py:922-932, btbgenietool
gui.py:698-708): keeps rows whose (non-empty) geometry intersects the
bounding box, i.e. inclusive bounds for point geometries; rows with empty
geometry have no bounds and are excluded. -/
def cx_indexer (df : List Sample) (xmin xmax ymin ymax : Int) : List Sample :=
  df.filter fun r =>
    !r.geomEmpty && decide (xmin ≤ r.x) && decide (r.x ≤ xmax)
      && decide (ymin ≤ r.y) && decide (r.y ≤ ymax)

/-- Embedding of `App.plot_in_region` (btbwgstool gui.py:922-932): the new
active subset is the coordinate-indexer slice of the full table. -/
def plot_in_region (cent : List Sample) (xmin xmax ymin ymax : Int) : List Sample :=
  cx_indexer cent xmin xmax ymin ymax

/-- Embedding of `App.plot_selected_clade` (btbwgstool gui.py:864-878).
The function receives the clade labels picked in the tree widget and the
previously active subset `self.sub`; with an empty selection it returns
early (`if len(clades) == 0: return`), leaving `self.sub` unchanged,
otherwise it sets `self.sub = cent[cent[level].isin(clades)]`.  The result
is the value of `self.sub` after the call. -/
def plot_selected_clade (cent : List Sample) (clades : List String)
    (prevSub : List Sample) : List Sample :=
  if clades.isEmpty then prevSub
  else cent.filter fun r => clades.contains r.clade

/-- Bounding box of a set of points, as GeoPandas `total_bounds`
(minx, miny, maxx, maxy). -/
structure Bounds where
  minx : Int
  miny : Int
  maxx : Int
  maxy : Int
deriving DecidableEq, Repr

/-- One min/max accumulation step of a bounding-box computation. -/
def boundsStep (b : Bounds) (r : Sample) : Bounds :=
  ⟨min b.minx r.x, min b.miny r.y, max b.maxx r.x, max b.maxy r.y⟩

/-- Embedding of `df.total_bounds` over the (already non-empty-geometry)
rows of a sample frame. -/
def total_bounds : List Sample → Bounds
  | [] => ⟨0, 0, 0, 0⟩
  | h :: t => t.foldl boundsStep ⟨h.x, h.y, h.x, h.y⟩

/-- The point of a sample row lies inside a bounding box. -/
def inBounds (b : Bounds) (r : Sample) : Prop :=
  b.minx ≤ r.x ∧ r.x ≤ b.maxx ∧ b.miny ≤ r.y ∧ r.y ≤ b.maxy

/-- Observable outcome of `plot_single_cluster`: the rows actually drawn
as points, and the `total_bounds` from which the axis extent
(`set_xlim` / `set_ylim` with a margin) is computed. -/
structure SinglePlot where
  plotted : List Sample
  bounds : Bounds
deriving DecidableEq, Repr

/-- Embedding of `plot_single_cluster` (btbwgstool gui.py:1337-1366):

    df = df[~df.is_empty]
    if len(df) == 0: ... return            # 'no locations available'
    minx, miny, maxx, maxy = df.total_bounds
    df = df[df.Species.isin(['Bovine','Badger'])]
    ... plot df (both branches draw exactly the Bovine and Badger rows)

Returns `none` in the no-locations case, otherwise the drawn rows and the
bounds (computed before the species filter). -/
def plot_single_cluster (df : List Sample) : Option SinglePlot :=
  let df1 := df.filter fun r => !r.geomEmpty
  if df1.isEmpty then none
  else
    let b := total_bounds df1
    let df2 := df1.filter fun r => r.Species == "Bovine" || r.Species == "Badger"
    some ⟨df2, b⟩

/-- A sample row used in several concrete counterexamples. -/
def mkSample (aid herd sp cl : String) (x y : Int) : Sample :=
  ⟨aid, herd, sp, cl, "Cork", x, y, false⟩

/-- Recursion core of `countsInOrder`, structural in a fuel argument so
that concrete instances evaluate by kernel reduction; the fuel `l.length`
always suffices since filtering shortens the list. -/
def countsInOrderAux : Nat → List String → List (String × Nat)
  | 0, _ => []
  | _, [] => []
  | fuel + 1, x :: xs =>
    (x, (x :: xs).count x) :: countsInOrderAux fuel (xs.filter fun v => v ≠ x)

/-- Embedding of step 1 of pandas `Series.value_counts()`: the distinct
values of a column in first-encountered order, each paired with its number
of occurrences in the column. -/
def countsInOrder (l : List String) : List (String × Nat) :=
  countsInOrderAux l.length l

/-- Embedding of pandas `Series.value_counts()`: occurrence counts sorted
descending; among equal counts pandas keeps the first-encountered value
first, which the stable insertion sort preserves. -/
def value_counts (l : List String) : List (String × Nat) :=
  List.insertionSort (fun a b => b.2 ≤ a.2) (countsInOrder l)

/-- Embedding of `App.update_clades` (btbwgstool gui.py:347-360):

    clades = self.cent[level].value_counts()
    clades = clades[clades>1]

and the retained (label, size) pairs populate the clade tree widget.  The
`clade` field of each sample holds the `level` column. -/
def update_clades (cent : List Sample) : List (String × Nat) :=
  (value_counts (cent.map Sample.clade)).filter fun p => 1 < p.2

/-- A `Decidable` instance for the string order that the kernel can
evaluate (through `toList`), used so that concrete instances of the
sorting definitions below reduce. -/
instance (priority := 2000) strLeDecToList : DecidableRel fun a b : String => a ≤ b :=
  fun a b => decidable_of_iff (a.toList ≤ b.toList) String.le_iff_toList_le.symm

/-- Embedding of `get_cluster_samples` (btbwgstool gui.py:1311-1322):

    v=cent[col].value_counts()
    v=v[v>=n]
    clusts=v.index
    g = cent[cent[col]!='-1']
    g = g[g[col].isin(clusts)]
    g = g.sort_values(col)
    return g

`sort_values` on the label column is modelled by the (stable) insertion
sort; the claim only concerns the induced sequence of labels. -/
def get_cluster_samples (cent : List Sample) (n : Nat) : List Sample :=
  let v := (value_counts (cent.map Sample.clade)).filter fun p => n ≤ p.2
  let clusts := v.map Prod.fst
  let g := cent.filter fun r => r.clade ≠ "-1"
  let g2 := g.filter fun r => clusts.contains r.clade
  List.insertionSort (fun a b => a.clade ≤ b.clade) g2

/-- The label comparison used to model `sort_values` on the clade column. -/
instance : IsTotal Sample fun a b => a.clade ≤ b.clade :=
  ⟨fun a b => le_total a.clade b.clade⟩

instance : IsTrans Sample fun a b => a.clade ≤ b.clade :=
  ⟨fun _ _ _ h1 h2 => le_trans h1 h2⟩

/-- The ordered sequence of distinct clade labels read off the rows that
`get_cluster_samples` returns (the spec's `clusterMembers`). -/
def cluster_labels (cent : List Sample) (n : Nat) : List String :=
  ((get_cluster_samples cent n).map Sample.clade).dedup

/-- Concrete samples refuting C4: clade column `["A","A","B","-1","-1"]`. -/
def exC4 : List Sample :=
  [mkSample "a1" "h1" "Bovine" "A" 0 0, mkSample "a2" "h2" "Bovine" "A" 1 0,
   mkSample "a3" "h3" "Bovine" "B" 2 0, mkSample "a4" "h4" "Bovine" "-1" 3 0,
   mkSample "a5" "h5" "Bovine" "-1" 4 0]

/-- Concrete samples refuting the C5 ordering: clade column `["A","B","B"]`. -/
def exC5 : List Sample :=
  [mkSample "a1" "h1" "Bovine" "A" 0 0, mkSample "a2" "h2" "Bovine" "B" 1 0,
   mkSample "a3" "h3" "Bovine" "B" 2 0]

/-- The five-sample scenario of the spec: clade column `["A","A","B","-1","B"]`. -/
def cent5 : List Sample :=
  [mkSample "a1" "h1" "Bovine" "A" 0 0, mkSample "a2" "h2" "Bovine" "A" 1 0,
   mkSample "a3" "h3" "Bovine" "B" 2 0, mkSample "a4" "h4" "Bovine" "-1" 3 0,
   mkSample "a5" "h5" "Bovine" "B" 4 0]

/-- A `Decidable` instance for the string strict order that the kernel can
evaluate (through `toList`). -/
instance (priority := 2000) strLtDecToList : DecidableRel fun a b : String => a < b :=
  fun a b => decidable_of_iff (a.toList < b.toList) String.lt_iff_toList_lt.symm

/-- One row of the merged movement frame built by `get_moves_bytag`
(the columns the claims observe); `none` models NaN.  The rows
concatenated from `lpis_cent` lack `Animal_ID`, `move_to` and
`move_date`. -/
structure MRow where
  Animal_ID : Option String
  HERD_NO : Option String
  move_to : Option String
  move_date : Option Nat
  geometry : Option Pt
deriving DecidableEq, Repr

/-- The lexicographic (`Animal_ID`, `move_date`) key comparison of
`sort_values(by=['Animal_ID','move_date'])`; pandas lexsort is stable, as
is the insertion sort.  After the `dropna` every row carries an
`Animal_ID`, and every surviving row a `move_date`, so the `getD`
defaults never order two surviving rows. -/
def mrowLe (a b : MRow) : Prop :=
  a.Animal_ID.getD "" < b.Animal_ID.getD "" ∨
    (a.Animal_ID.getD "" = b.Animal_ID.getD ""
      ∧ a.move_date.getD 0 ≤ b.move_date.getD 0)

instance : DecidableRel mrowLe := fun _a _b =>
  inferInstanceAs (Decidable (_ ∨ (_ ∧ _)))

/-- Embedding of `App.get_moves_bytag` (btbwgstool gui.py:944-959):

    t = df.merge(move_df,left_on='Animal_ID',right_on='tag',how='inner')[cols]
    m = t.merge(lpis_cent,left_on='move_to',right_on='SPH_HERD_N', how='left')
    if len(m)==0:
        return
    x = lpis_cent[lpis_cent.SPH_HERD_N.isin(df.HERD_NO)]
    m = pd.concat([m,x]).dropna(subset='Animal_ID')
    m = m.sort_values(by=['Animal_ID','move_date'])
    return m

The inner merge pairs each sample row (in order) with its matching
movement rows (in order); the left merge duplicates a movement row per
matching centroid and keeps it with NaN geometry when no centroid
matches; the concatenated `x` rows have NaN `Animal_ID` (they come from
`lpis_cent`, which has no such column), so `dropna(subset='Animal_ID')`
removes exactly them. -/
def get_moves_bytag (df : List Sample) (move_df : List MoveRow)
    (lpis_cent : List CentRow) : Option (List MRow) :=
  let t := df.flatMap fun r =>
    (move_df.filter fun mv => mv.tag == r.Animal_ID).map fun mv => (r, mv)
  let m := t.flatMap fun rm =>
    let cs := lpis_cent.filter fun c => c.SPH_HERD_N == rm.2.move_to
    if cs.isEmpty then
      [⟨some rm.1.Animal_ID, some rm.1.HERD_NO, some rm.2.move_to,
        some rm.2.move_date, none⟩]
    else cs.map fun c =>
      ⟨some rm.1.Animal_ID, some rm.1.HERD_NO, some rm.2.move_to,
        some rm.2.move_date, some ⟨c.cx, c.cy⟩⟩
  if m.isEmpty then none
  else
    let x : List MRow := (lpis_cent.filter fun c =>
        df.any fun r => r.HERD_NO == c.SPH_HERD_N).map
      fun c => ⟨none, none, none, none, some ⟨c.cx, c.cy⟩⟩
    some (List.insertionSort mrowLe ((m ++ x).filter fun r => r.Animal_ID.isSome))

/-- Embedding of pandas `groupby('Animal_ID')` as used in `plot_moves`:
keys sorted ascending, NaN keys dropped, rows of each group in their
original order. -/
def groupByAnimal (ms : List MRow) : List (String × List MRow) :=
  (List.insertionSort (fun a b : String => a ≤ b)
      (ms.filterMap MRow.Animal_ID).dedup).map
    fun k => (k, ms.filter fun r => r.Animal_ID == some k)

/-- Modelled from the spec: `plotting.random_colors(n, seed)` lives in the
repository's `plotting` module, which is not under src/.  Per the spec's
ColorAssigner contract it deterministically produces a palette of exactly
`n` colors for a given seed; colors are abstracted to their palette
indices. -/
def random_colors (n : Nat) (_seed : Nat) : List Nat :=
  List.range n

/-- The per-animal loop of `App.plot_moves` (btbwgstool gui.py:961-981):
for each animal group whose trace has at least one segment the line is
drawn with `colors[i]` and `i` is incremented; indexing past the end of
the palette is an `IndexError`.  The result lists, per drawn animal, its
tag, palette index and segments. -/
def plotMovesLoop (colors : List Nat) :
    Nat → List (String × List MRow) → Except String (List (String × Nat × List Seg))
  | _, [] => .ok []
  | i, g :: rest =>
    if 0 < ((get_coords_data ⟨g.2.filterMap MRow.geometry, none⟩).2).length then
      match colors.get? i with
      | none => .error "IndexError"
      | some c =>
        (plotMovesLoop colors (i + 1) rest).map
          fun acc => (g.1, c, (get_coords_data ⟨g.2.filterMap MRow.geometry, none⟩).2) :: acc
    else plotMovesLoop colors i rest

/-- Embedding of `App.plot_moves` (btbwgstool gui.py:961-981):

    colors = plotting.random_colors(30, seed=12)
    i=0
    if moves is None:
        return
    moves = moves[moves.geometry.notnull()]
    for tag,t in moves.groupby('Animal_ID'):
        ...
        coords = get_coords_data(t)
        if len(coords)>0:
            mlines = gpd.GeoDataFrame(geometry=coords)
            mlines.plot(color=colors[i],...)
            ...
            i+=1

The `moved` square markers drawn per animal are presentation detail not
observed by any claim and are omitted. -/
def plot_moves (moves : Option (List MRow)) :
    Except String (List (String × Nat × List Seg)) :=
  match moves with
  | none => .ok []
  | some ms =>
    plotMovesLoop (random_colors 30 12) 0
      (groupByAnimal (ms.filter fun r => r.geometry.isSome))

/-- Number of animals whose trace, after dropping rows without geometry,
has at least two waypoints (hence at least one segment). -/
def movesQualifying (ms : List MRow) : Nat :=
  ((groupByAnimal (ms.filter fun r => r.geometry.isSome)).filter
    fun g => 2 ≤ g.2.length).length

/-- The C1 scenario: one animal A1 currently in herd H3, with movements to
H1 (date 1) and H2 (date 3); only H1 and H3 have parcel centroids. -/
def exDfC1 : List Sample := [mkSample "A1" "H3" "Bovine" "A" 5 5]

def exMovesC1 : List MoveRow := [⟨"A1", "H1", 1⟩, ⟨"A1", "H2", 3⟩]

def exCentC1 : List CentRow := [⟨"H1", 0, 0⟩, ⟨"H3", 10, 10⟩]

/-- 31 animals with two resolvable waypoints each, for the C9 witness. -/
def exMs31 : List MRow :=
  (List.range 31).flatMap fun k =>
    [⟨some (toString k), none, none, some 0, some ⟨0, 0⟩⟩,
     ⟨some (toString k), none, none, some 1, some ⟨1, 1⟩⟩]

/-- A point of the frame passed to `plot_hexbin`, carrying the value of
the category column `col`. -/
structure HexPt where
  hx : Int
  hy : Int
  cat : String
deriving DecidableEq, Repr

/-- A grid cell produced by `create_hex_grid` / `create_grid` (plotting
module), abstracted to its point-in-polygon membership test; the claim
quantifies over every grid. -/
structure GridCell where
  contains : Int → Int → Bool

/-- The category values of the points falling inside a cell, in point
order: the per-cell groups of
`gpd.sjoin(gdf, grid, how='left', predicate='within')` followed by
`dissolve(by="index_right")` (points outside every cell get a NaN
`index_right` and are dropped by the groupby; intra-group order is the
point order). -/
def cellCats (pts : List HexPt) (c : GridCell) : List String :=
  (pts.filter fun p => c.contains p.hx p.hy).map HexPt.cat

/-- Embedding of the aggregation `aggtop` in `plot_hexbin`
(btbgenietool gui.py:1099-1103):

    def aggtop(x):
        c = x.value_counts()
        if len(c)>0:
            return c.index[0]
-/
def aggtop (l : List String) : Option String :=
  (value_counts l).head?.map Prod.fst

/-- The cell-to-dominant-value mapping that `plot_hexbin` builds through
`merged.dissolve(by="index_right", aggfunc=aggtop)` and
`grid.loc[dissolve.index, 'value'] = dissolve[col].values`: one entry per
grid cell (identified by its positional index) holding the most common
category value among the cell's points; cells without points get no
entry. -/
def assignDominant (pts : List HexPt) (grid : List GridCell) : List (Nat × String) :=
  grid.enum.filterMap fun ic => (aggtop (cellCats pts ic.2)).map fun v => (ic.1, v)

/-- Modelled from the spec: `plotting.get_color_mapping(gdf, col, cmap)`
is code of this repository not under src/; per the spec's ColorAssigner
contract it deterministically maps the sorted distinct category values to
palette slots (index modulo palette length).  Colors are abstracted to
`Nat` with a nominal palette length of 20; only which values receive a
color matters to the claims. -/
def get_color_mapping (pts : List HexPt) : List (String × Nat) :=
  (List.insertionSort (fun a b : String => a ≤ b) (pts.map HexPt.cat).dedup).enum.map
    fun iv => (iv.2, iv.1 % 20)

/-- Embedding of `Series.map` over a finite key-value mapping (`snpmap`),
as used by `grid.value.map(snpmap)`: the first entry with the matching
key, NaN when none. -/
def lookupColor (v : String) : List (String × Nat) → Option Nat
  | [] => none
  | (k, c) :: rest => if k = v then some c else lookupColor v rest

/-- The cells `plot_hexbin` actually renders with a category color:

    grid['color'] = grid.value.map(snpmap)
    grid = grid[~grid.color.isnull()]
    grid.plot(color=grid.color, ...)

A cell is kept exactly when it received a dominant value and the color
map covers that value. -/
def renderedCells (pts : List HexPt) (grid : List GridCell) : List (Nat × Nat) :=
  grid.enum.filterMap fun ic =>
    match aggtop (cellCats pts ic.2) with
    | none => none
    | some v => (lookupColor v (get_color_mapping pts)).map fun clr => (ic.1, clr)

/-- The prefilter of `plot_hexbin` (btbgenietool gui.py:1084-1087): drop
the sentinel "-1", then keep only the ten most common clades. -/
def hexPrefilter (pts : List HexPt) : List HexPt :=
  let pts1 := pts.filter fun p => p.cat ≠ "-1"
  let common := ((value_counts (pts1.map HexPt.cat)).map Prod.fst).take 10
  pts1.filter fun p => common.contains p.cat

/-- Embedding of `plot_hexbin` (btbgenietool gui.py:1081-1118): the
dominant-category mapping and the rendered colored cells, both computed
over the prefiltered points. -/
def plot_hexbin (pts : List HexPt) (grid : List GridCell) :
    List (Nat × String) × List (Nat × Nat) :=
  (assignDominant (hexPrefilter pts) grid, renderedCells (hexPrefilter pts) grid)

/-- The value a maximum-scan over `(value, count)` pairs keeps: the
highest count, and among equal counts the earliest pair.  The head of the
stable descending sort in `value_counts` is exactly this, which makes the
"ties broken by first-encountered value" reading precise. -/
def firstMax : List (String × Nat) → Option (String × Nat)
  | [] => none
  | x :: xs =>
    match firstMax xs with
    | none => some x
    | some m => if x.2 < m.2 then some m else some x

/-- Concrete points and grid for the C2 witness: three points in the
first cell (categories A, B, B), one in the second (C), nothing in the
third. -/
def exPts : List HexPt :=
  [⟨0, 0, "A"⟩, ⟨1, 0, "B"⟩, ⟨2, 0, "B"⟩, ⟨50, 50, "C"⟩]

def exGrid : List GridCell :=
  [⟨fun x _ => decide (x < 10)⟩, ⟨fun x _ => decide (10 ≤ x)⟩, ⟨fun _ _ => false⟩]

/-! ### Theorems -/

theorem length_zip_tail (g : List Pt) : (g.zip g.tail).length = g.length - 1 := by
  rcases g with _ | ⟨h, t⟩
  · simp
  · simp [List.length_zip]

/-- C3: for an animal trace with `k` resolvable waypoints, `get_coords_data`
yields exactly `k-1` line segments when `k ≥ 2`, and zero segments
(without error) when `k < 2`. -/
theorem c3_segment_count (df : MovesDF) :
    (2 ≤ df.geometry.length →
      (get_coords_data df).2.length = df.geometry.length - 1) ∧
    (df.geometry.length < 2 → (get_coords_data df).2.length = 0) := by
  constructor
  · intro _
    simp only [get_coords_data]
    exact length_zip_tail df.geometry
  · intro h
    have := length_zip_tail df.geometry
    simp only [get_coords_data]
    omega

/-- Witness for C3 at concrete traces of length 3 and length 1. -/
theorem c3_segment_count_witness :
    (get_coords_data ⟨[⟨0,0⟩, ⟨1,1⟩, ⟨2,2⟩], none⟩).2.length = 2 ∧
    (get_coords_data ⟨[⟨5,5⟩], none⟩).2.length = 0 := by
  constructor
  · exact (c3_segment_count ⟨[⟨0,0⟩, ⟨1,1⟩, ⟨2,2⟩], none⟩).1 (by decide)
  · exact (c3_segment_count ⟨[⟨5,5⟩], none⟩).2 (by decide)

/-- C7: region (bounding-box) selection is inclusive at the boundary: a
sample lying exactly on `xmin`, `xmax`, `ymin` or `ymax` while inside the
other bounds is part of the resulting subset. -/
theorem c7_region_inclusive (cent : List Sample) (xmin xmax ymin ymax : Int)
    (r : Sample) (hmem : r ∈ cent) (hg : r.geomEmpty = false)
    (hx1 : xmin ≤ r.x) (hx2 : r.x ≤ xmax) (hy1 : ymin ≤ r.y) (hy2 : r.y ≤ ymax)
    (_hedge : r.x = xmin ∨ r.x = xmax ∨ r.y = ymin ∨ r.y = ymax) :
    r ∈ plot_in_region cent xmin xmax ymin ymax := by
  simp only [plot_in_region, cx_indexer, List.mem_filter, Bool.and_eq_true,
    Bool.not_eq_true', decide_eq_true_eq]
  exact ⟨hmem, ⟨⟨⟨⟨hg, hx1⟩, hx2⟩, hy1⟩, hy2⟩⟩

/-- Witness for C7: a sample exactly at the left edge of the box. -/
theorem c7_region_inclusive_witness :
    (⟨"a1", "h1", "Bovine", "A", "Cork", 0, 5, false⟩ : Sample) ∈
      plot_in_region [⟨"a1", "h1", "Bovine", "A", "Cork", 0, 5, false⟩] 0 10 0 10 :=
  c7_region_inclusive _ 0 10 0 10 _ (by decide) rfl (by decide) (by decide)
    (by decide) (by decide) (Or.inl rfl)

/-- C6 counterexample: selecting with an empty clade-label list does not
install an empty subset; `plot_selected_clade` returns early and the
previously active (non-empty) subset stays in place. -/
theorem c6_empty_selection_counterexample :
    plot_selected_clade [mkSample "a1" "h1" "Bovine" "A" 0 0] []
        [mkSample "a2" "h2" "Bovine" "B" 1 1]
      = [mkSample "a2" "h2" "Bovine" "B" 1 1] ∧
    plot_selected_clade [mkSample "a1" "h1" "Bovine" "A" 0 0] []
        [mkSample "a2" "h2" "Bovine" "B" 1 1] ≠ [] := by
  constructor
  · rfl
  · decide

/-- C6 amended: with an empty clade-label list the clade selection is a
no-op (the previous subset remains the active one, and no error is
raised); a non-empty label list that matches no sample row does install a
valid empty subset. -/
theorem c6_empty_selection_amended (cent prevSub : List Sample)
    (clades : List String) :
    (clades = [] → plot_selected_clade cent clades prevSub = prevSub) ∧
    (clades ≠ [] → (∀ r ∈ cent, r.clade ∉ clades) →
      plot_selected_clade cent clades prevSub = []) := by
  constructor
  · intro h
    subst h
    rfl
  · intro hne hnomatch
    simp only [plot_selected_clade, List.isEmpty_iff, if_neg hne]
    rw [List.filter_eq_nil_iff]
    intro r hr
    simpa using hnomatch r hr

/-- Witness for C6 amended: empty selection keeps the previous subset;
the label list ["Z"] matches nothing and yields the empty subset. -/
theorem c6_empty_selection_amended_witness :
    plot_selected_clade [mkSample "a1" "h1" "Bovine" "A" 0 0] []
        [mkSample "a2" "h2" "Bovine" "B" 1 1]
      = [mkSample "a2" "h2" "Bovine" "B" 1 1] ∧
    plot_selected_clade [mkSample "a1" "h1" "Bovine" "A" 0 0] ["Z"]
        [mkSample "a2" "h2" "Bovine" "B" 1 1] = [] := by
  constructor
  · exact (c6_empty_selection_amended _ _ []).1 rfl
  · exact (c6_empty_selection_amended [mkSample "a1" "h1" "Bovine" "A" 0 0] _ ["Z"]).2
      (by decide) (by decide)

/-- C8 counterexample: `get_coords_data` is not side-effect-free on its
input frame — it writes the helper column `P2` into the frame it was
given, so the frame after the call differs from the frame before it. -/
theorem c8_purity_counterexample :
    (get_coords_data ⟨[⟨0, 0⟩, ⟨3, 4⟩], none⟩).1 ≠ ⟨[⟨0, 0⟩, ⟨3, 4⟩], none⟩ := by
  decide

/-- C8 amended: the movement-segment construction leaves the geometry
column untouched and changes the input frame only by writing the `P2`
column; invoking it again on the frame it produced returns the identical
frame and the identical segments, so repeated invocation is safe and
deterministic. -/
theorem c8_purity_amended (df : MovesDF) :
    (get_coords_data df).1.geometry = df.geometry ∧
    (get_coords_data df).1 = { geometry := df.geometry, P2 := some (shiftNeg1 df.geometry) } ∧
    get_coords_data (get_coords_data df).1 = get_coords_data df := by
  refine ⟨rfl, rfl, ?_⟩
  simp [get_coords_data]

/-- The fuel of `countsInOrderAux` is irrelevant as long as it covers the
length of the list. -/
theorem countsInOrderAux_irrel :
    ∀ fuel1 fuel2 (l : List String), l.length ≤ fuel1 → l.length ≤ fuel2 →
      countsInOrderAux fuel1 l = countsInOrderAux fuel2 l := by
  intro fuel1
  induction fuel1 with
  | zero =>
    intro fuel2 l h1 h2
    have : l = [] := List.length_eq_zero.mp (Nat.le_zero.mp h1)
    subst this
    cases fuel2 <;> rfl
  | succ m ih =>
    intro fuel2 l h1 h2
    match l, fuel2 with
    | [], f2 => cases f2 <;> rfl
    | x :: xs, 0 => exact absurd h2 (by simp)
    | x :: xs, f2 + 1 =>
      rw [countsInOrderAux, countsInOrderAux]
      congr 1
      exact ih f2 _
        (le_trans (List.length_filter_le _ xs) (Nat.le_of_succ_le_succ h1))
        (le_trans (List.length_filter_le _ xs) (Nat.le_of_succ_le_succ h2))

theorem countsInOrder_nil : countsInOrder [] = [] := rfl

/-- The defining unfolding of `countsInOrder` on a non-empty column. -/
theorem countsInOrder_cons (x : String) (xs : List String) :
    countsInOrder (x :: xs)
      = (x, (x :: xs).count x) :: countsInOrder (xs.filter fun v => v ≠ x) := by
  simp only [countsInOrder, List.length_cons, countsInOrderAux]
  congr 1
  exact countsInOrderAux_irrel xs.length _ _ (List.length_filter_le _ xs) le_rfl

/-- Induction along the recursion structure of `countsInOrder`. -/
theorem countsInOrder_ind (P : List String → Prop) (case1 : P [])
    (case2 : ∀ x xs, P (xs.filter fun v => v ≠ x) → P (x :: xs)) : ∀ l, P l := by
  have H : ∀ n (l : List String), l.length ≤ n → P l := by
    intro n
    induction n with
    | zero =>
      intro l hl
      have : l = [] := List.length_eq_zero.mp (Nat.le_zero.mp hl)
      subst this
      exact case1
    | succ m ih =>
      intro l hl
      match l with
      | [] => exact case1
      | x :: xs =>
        apply case2
        apply ih
        exact le_trans (List.length_filter_le _ xs) (Nat.le_of_succ_le_succ hl)
  intro l
  exact H l.length l le_rfl

/-- Every entry of `countsInOrder` pairs a value of the column with its
exact occurrence count. -/
theorem countsInOrder_mem (l : List String) :
    ∀ v c, (v, c) ∈ countsInOrder l → v ∈ l ∧ c = l.count v := by
  induction l using countsInOrder_ind with
  | case1 => simp [countsInOrder_nil]
  | case2 x xs ih =>
    intro v c h
    rw [countsInOrder_cons] at h
    rcases List.mem_cons.mp h with h1 | h1
    · rw [Prod.mk.injEq] at h1
      obtain ⟨rfl, rfl⟩ := h1
      exact ⟨List.mem_cons_self _ _, rfl⟩
    · obtain ⟨hv, hc⟩ := ih v c h1
      obtain ⟨hvxs, hne⟩ := List.mem_filter.mp hv
      have hne' : v ≠ x := by simpa using hne
      refine ⟨List.mem_cons_of_mem _ hvxs, ?_⟩
      rw [hc, List.count_filter (by simpa using hne'), List.count_cons_of_ne hne']

/-- Every value occurring in the column appears in `countsInOrder` with
its occurrence count. -/
theorem countsInOrder_complete (l : List String) :
    ∀ v, v ∈ l → (v, l.count v) ∈ countsInOrder l := by
  induction l using countsInOrder_ind with
  | case1 => simp
  | case2 x xs ih =>
    intro v hv
    rw [countsInOrder_cons]
    by_cases hvx : v = x
    · subst hvx
      exact List.mem_cons_self _ _
    · have hvxs : v ∈ xs := by
        rcases List.mem_cons.mp hv with h | h
        · exact absurd h hvx
        · exact h
      have hv2 : v ∈ xs.filter fun v => v ≠ x :=
        List.mem_filter.mpr ⟨hvxs, by simpa using hvx⟩
      have hrec := ih v hv2
      rw [List.count_filter (by simpa using hvx)] at hrec
      rw [List.count_cons_of_ne hvx]
      exact List.mem_cons_of_mem _ hrec

/-- An entry of `value_counts` is exactly a (value, occurrence count)
pair of the column. -/
theorem mem_value_counts (l : List String) (v : String) (c : Nat) :
    (v, c) ∈ value_counts l ↔ v ∈ l ∧ c = l.count v := by
  rw [value_counts, (List.perm_insertionSort _ _).mem_iff]
  constructor
  · exact countsInOrder_mem l v c
  · rintro ⟨hm, rfl⟩
    exact countsInOrder_complete l v hm

theorem length_filter_ne_add_count (xs : List String) (x : String) :
    (xs.filter fun v => v ≠ x).length + xs.count x = xs.length := by
  induction xs with
  | nil => simp
  | cons y ys ih =>
    by_cases h : y = x
    · subst h
      simp only [List.filter_cons, List.count_cons, decide_eq_true_eq, List.length_cons]
      rw [if_neg (by simp), if_pos (by simp)]
      omega
    · simp only [List.filter_cons, List.count_cons, decide_eq_true_eq, List.length_cons]
      rw [if_pos h, if_neg (by simp [h])]
      simp only [List.length_cons]
      omega

theorem countP_split (l : List String) (x : String) (q : String → Bool) :
    l.countP q = (l.filter fun v => v = x).countP q + (l.filter fun v => v ≠ x).countP q := by
  induction l with
  | nil => simp
  | cons y ys ih =>
    by_cases h : y = x
    · subst h
      rw [List.filter_cons_of_pos (by simp), List.filter_cons_of_neg (by simp)]
      simp only [List.countP_cons]
      omega
    · rw [List.filter_cons_of_neg (by simpa using h), List.filter_cons_of_pos (by simpa using h)]
      simp only [List.countP_cons]
      omega

theorem countP_replicate (n : Nat) (x : String) (q : String → Bool) :
    (List.replicate n x).countP q = if q x then n else 0 := by
  induction n with
  | zero => simp
  | succ m ih =>
    simp only [List.replicate_succ, List.countP_cons, ih]
    by_cases h : q x
    · rw [if_pos h, if_pos h, if_pos h]
    · rw [if_neg h, if_neg h, if_neg h]

theorem length_filter_count_le (l : List String) :
    (l.filter fun v => l.count v ≤ 1).length = l.countP fun v => decide (l.count v ≤ 1) := by
  rw [List.countP_eq_length_filter]

/-- The counts larger than one, summed over `countsInOrder`, together with
the number of column entries whose value occurs at most once, give the
column length. -/
theorem counts_gt1_sum_add (l : List String) :
    (((countsInOrder l).filter fun p => 1 < p.2).map Prod.snd).sum
      + (l.filter fun v => l.count v ≤ 1).length = l.length := by
  induction l using countsInOrder_ind with
  | case1 => simp [countsInOrder_nil]
  | case2 x xs ih =>
    rw [countsInOrder_cons]
    set xs2 := xs.filter fun v => v ≠ x with hxs2
    have hc0 : (x :: xs).count x = xs.count x + 1 := by
      simp [List.count_cons]
    have hcong : xs2.countP (fun v => decide ((x :: xs).count v ≤ 1))
        = xs2.countP (fun v => decide (xs2.count v ≤ 1)) := by
      apply List.countP_congr
      intro v hv
      rw [hxs2] at hv
      obtain ⟨hvxs, hne⟩ := List.mem_filter.mp hv
      have hne' : v ≠ x := by simpa using hne
      rw [decide_eq_true_eq, decide_eq_true_eq, List.count_cons_of_ne hne', hxs2,
        List.count_filter (by simpa using hne')]
    rw [length_filter_count_le, List.countP_cons,
      countP_split xs x (fun v => decide ((x :: xs).count v ≤ 1)), List.filter_eq,
      countP_replicate, ← hxs2, hcong, ← length_filter_count_le]
    rw [List.filter_cons]
    have hld := length_filter_count_le xs2
    have hlen := length_filter_ne_add_count xs x
    rw [← hxs2] at hlen
    by_cases h1 : 1 < (x :: xs).count x
    · have hd1 : decide (1 < ((x : String), (x :: xs).count x).2) = true := by
        simpa using h1
      have hd2 : decide ((x :: xs).count x ≤ 1) = false := by
        simp only [decide_eq_false_iff_not]
        omega
      simp only [hd1, hd2, if_true, Bool.false_eq_true, if_false, List.map_cons,
        List.sum_cons, List.length_cons]
      omega
    · have hd1 : decide (1 < ((x : String), (x :: xs).count x).2) = false := by
        simpa using h1
      have hd2 : decide ((x :: xs).count x ≤ 1) = true := by
        simp only [decide_eq_true_eq]
        omega
      simp only [hd1, hd2, if_true, Bool.false_eq_true, if_false, List.length_cons]
      omega

/-- C4 counterexample: for the clade column `["A","A","B","-1","-1"]` the
clade index retains the sentinel "-1" (with count 2) and drops the
singleton clade "B", so its counts sum to 4, not to
`len(S) - #sentinel = 3` as the claim states. -/
theorem c4_sentinel_counterexample :
    update_clades exC4 = [("A", 2), ("-1", 2)] ∧
    ((update_clades exC4).map Prod.snd).sum = 4 ∧
    exC4.length - (exC4.filter fun r => r.clade = "-1").length = 3 := by
  refine ⟨by decide, by decide, by decide⟩

/-- C4 amended: `update_clades` returns exactly the (label, count) pairs
of labels occurring more than once — the sentinel included — and its
counts sum to the number of samples minus the samples whose label occurs
at most once. -/
theorem c4_counts_amended (cent : List Sample) :
    (∀ lbl c, (lbl, c) ∈ update_clades cent ↔
      lbl ∈ cent.map Sample.clade ∧ c = (cent.map Sample.clade).count lbl ∧ 1 < c) ∧
    ((update_clades cent).map Prod.snd).sum
      = cent.length - ((cent.map Sample.clade).filter
          fun v => (cent.map Sample.clade).count v ≤ 1).length := by
  have hperm : List.Perm (value_counts (cent.map Sample.clade))
      (countsInOrder (cent.map Sample.clade)) :=
    List.perm_insertionSort _ _
  have hpermf := hperm.filter fun p => decide (1 < p.2)
  constructor
  · intro lbl c
    rw [update_clades, hpermf.mem_iff, List.mem_filter]
    constructor
    · rintro ⟨h3, h4⟩
      obtain ⟨hm, hc⟩ := countsInOrder_mem _ lbl c h3
      exact ⟨hm, hc, by simpa using h4⟩
    · rintro ⟨hm, rfl, hgt⟩
      exact ⟨countsInOrder_complete _ lbl hm, by simpa using hgt⟩
  · have hsum := counts_gt1_sum_add (cent.map Sample.clade)
    have heq : ((update_clades cent).map Prod.snd).sum
        = (((countsInOrder (cent.map Sample.clade)).filter fun p => 1 < p.2).map
            Prod.snd).sum :=
      (hpermf.map Prod.snd).sum_eq
    have hlen : (cent.map Sample.clade).length = cent.length := List.length_map _ _
    omega

/-- Witness for C4 amended: the entry ("A", 2) and the sum equation at the
concrete frame `exC4`. -/
theorem c4_counts_amended_witness :
    ("A", 2) ∈ update_clades exC4 ∧
    ((update_clades exC4).map Prod.snd).sum
      = exC4.length - ((exC4.map Sample.clade).filter
          fun v => (exC4.map Sample.clade).count v ≤ 1).length := by
  refine ⟨((c4_counts_amended exC4).1 "A" 2).mpr (by decide), (c4_counts_amended exC4).2⟩

/-- The clade labels retained by the `v >= n` cut in `get_cluster_samples`
are exactly the labels whose occurrence count is at least `n`. -/
theorem mem_clusts (cent : List Sample) (n : Nat) (lbl : String) :
    lbl ∈ (((value_counts (cent.map Sample.clade)).filter fun p => n ≤ p.2).map Prod.fst)
      ↔ lbl ∈ cent.map Sample.clade ∧ n ≤ (cent.map Sample.clade).count lbl := by
  rw [List.mem_map]
  constructor
  · rintro ⟨p, hp, rfl⟩
    obtain ⟨hvc, hn⟩ := List.mem_filter.mp hp
    obtain ⟨hm, hc⟩ := (mem_value_counts _ _ _).mp hvc
    refine ⟨hm, ?_⟩
    rw [← hc]
    simpa using hn
  · rintro ⟨hm, hn⟩
    refine ⟨(lbl, (cent.map Sample.clade).count lbl), ?_, rfl⟩
    exact List.mem_filter.mpr ⟨(mem_value_counts _ _ _).mpr ⟨hm, rfl⟩, by simpa using hn⟩

/-- C5 counterexample: for clade column `["A","B","B"]` and minSize 1 the
label sequence the code produces is `["A","B"]` (ascending label order),
not the `["B","A"]` (descending count order) the claim requires. -/
theorem c5_order_counterexample :
    cluster_labels exC5 1 = ["A", "B"] ∧ cluster_labels exC5 1 ≠ ["B", "A"] := by
  have h1 : cluster_labels exC5 1 = ["A", "B"] := by rfl
  refine ⟨h1, ?_⟩
  rw [h1]
  decide

/-- C5 amended: `get_cluster_samples` yields exactly the non-sentinel
labels with count at least `n`, but ordered ascending by label (the rows
are sorted by the label column), not descending by count; the label
sequence is duplicate-free.  On the spec scenario (clade column
`["A","A","B","-1","B"]`, minSize 2) it still returns `["A","B"]`. -/
theorem c5_cluster_labels_amended (cent : List Sample) (n : Nat) :
    (∀ lbl, lbl ∈ cluster_labels cent n ↔
      lbl ∈ cent.map Sample.clade ∧ lbl ≠ "-1"
        ∧ n ≤ (cent.map Sample.clade).count lbl) ∧
    List.Sorted (· ≤ ·) (cluster_labels cent n) ∧
    (cluster_labels cent n).Nodup := by
  refine ⟨?_, ?_, ?_⟩
  · intro lbl
    rw [cluster_labels, List.mem_dedup, List.mem_map]
    constructor
    · rintro ⟨r, hr, rfl⟩
      rw [get_cluster_samples, List.mem_insertionSort] at hr
      obtain ⟨hr2, hcont⟩ := List.mem_filter.mp hr
      obtain ⟨hrc, hne⟩ := List.mem_filter.mp hr2
      have hcl : r.clade ∈ (((value_counts (cent.map Sample.clade)).filter
          fun p => n ≤ p.2).map Prod.fst) := by
        simpa [List.elem_iff] using hcont
      obtain ⟨hm, hn⟩ := (mem_clusts cent n r.clade).mp hcl
      exact ⟨hm, by simpa using hne, hn⟩
    · rintro ⟨hm, hne, hn⟩
      obtain ⟨r, hr, rfl⟩ := List.mem_map.mp hm
      refine ⟨r, ?_, rfl⟩
      rw [get_cluster_samples, List.mem_insertionSort]
      refine List.mem_filter.mpr ⟨List.mem_filter.mpr ⟨hr, by simpa using hne⟩, ?_⟩
      have : r.clade ∈ (((value_counts (cent.map Sample.clade)).filter
          fun p => n ≤ p.2).map Prod.fst) :=
        (mem_clusts cent n r.clade).mpr ⟨hm, hn⟩
      simpa [List.elem_iff] using this
  · have hs : List.Sorted (fun a b => Sample.clade a ≤ Sample.clade b)
        (get_cluster_samples cent n) := by
      rw [get_cluster_samples]
      exact List.sorted_insertionSort _ _
    have hmap : List.Sorted (· ≤ ·) ((get_cluster_samples cent n).map Sample.clade) :=
      List.pairwise_map.mpr hs
    exact hmap.sublist (List.dedup_sublist _)
  · exact List.nodup_dedup _

/-- Witness for C5 amended: on the spec five-sample scenario with minSize
2, the label "A" qualifies (count 2 ≥ 2, not the sentinel), and the label
sequence is sorted and duplicate-free. -/
theorem c5_cluster_labels_amended_witness :
    "A" ∈ cluster_labels cent5 2 ∧ List.Sorted (· ≤ ·) (cluster_labels cent5 2)
      ∧ (cluster_labels cent5 2).Nodup := by
  refine ⟨((c5_cluster_labels_amended cent5 2).1 "A").mpr (by decide),
    (c5_cluster_labels_amended cent5 2).2.1, (c5_cluster_labels_amended cent5 2).2.2⟩

theorem inBounds_boundsStep (b : Bounds) (s r : Sample) (h : inBounds b r) :
    inBounds (boundsStep b s) r := by
  obtain ⟨h1, h2, h3, h4⟩ := h
  refine ⟨?_, ?_, ?_, ?_⟩ <;> simp [boundsStep] <;> omega

theorem inBounds_foldl (t : List Sample) :
    ∀ (b : Bounds) (r : Sample), inBounds b r → inBounds (t.foldl boundsStep b) r := by
  induction t with
  | nil => intro b r h; exact h
  | cons s t2 ih =>
    intro b r h
    exact ih _ r (inBounds_boundsStep b s r h)

theorem inBounds_foldl_mem (t : List Sample) :
    ∀ (b : Bounds) (r : Sample), r ∈ t → inBounds (t.foldl boundsStep b) r := by
  induction t with
  | nil => intro b r h; exact absurd h (List.not_mem_nil r)
  | cons s t2 ih =>
    intro b r h
    rcases List.mem_cons.mp h with h1 | h1
    · subst h1
      rw [List.foldl_cons]
      apply inBounds_foldl
      refine ⟨?_, ?_, ?_, ?_⟩ <;> simp [boundsStep]
    · rw [List.foldl_cons]
      exact ih _ r h1

/-- Every row of a frame lies inside the frame's `total_bounds`. -/
theorem inBounds_total_bounds (l : List Sample) (r : Sample) (h : r ∈ l) :
    inBounds (total_bounds l) r := by
  match l with
  | [] => exact absurd h (List.not_mem_nil r)
  | s :: t =>
    rw [total_bounds]
    rcases List.mem_cons.mp h with h1 | h1
    · subst h1
      exact inBounds_foldl t _ r ⟨le_refl _, le_refl _, le_refl _, le_refl _⟩
    · exact inBounds_foldl_mem t _ r h1

/-- C10: `plot_single_cluster` draws exactly the Bovine and Badger rows of
the (non-empty-geometry) subset — samples of any other species are
silently omitted from the drawn points — while the plot extent is the
`total_bounds` of all non-empty-geometry rows, computed before the species
filter, so the omitted rows still lie inside it. -/
theorem c10_species_filter (df : List Sample) (res : SinglePlot)
    (h : plot_single_cluster df = some res) :
    res.plotted = (df.filter fun r => !r.geomEmpty).filter
        (fun r => r.Species == "Bovine" || r.Species == "Badger") ∧
    (∀ r ∈ res.plotted, r.Species = "Bovine" ∨ r.Species = "Badger") ∧
    (∀ r ∈ df.filter fun r => !r.geomEmpty, inBounds res.bounds r) := by
  rw [plot_single_cluster] at h
  by_cases he : (df.filter fun r => !r.geomEmpty).isEmpty
  · simp [he] at h
  · simp only [he, if_false, Bool.false_eq_true, Option.some.injEq] at h
    subst h
    refine ⟨rfl, ?_, ?_⟩
    · intro r hr
      have := (List.mem_filter.mp hr).2
      simpa using this
    · intro r hr
      exact inBounds_total_bounds _ r hr

/-- Witness for C10: a frame with one Bovine row at (0,0) and one Deer row
at (100,100); the Deer row is not drawn but stretches the bounds. -/
theorem c10_species_filter_witness :
    (plot_single_cluster [mkSample "b1" "h1" "Bovine" "A" 0 0,
        mkSample "d1" "h2" "Deer" "A" 100 100]).isSome ∧
    (∀ res, plot_single_cluster [mkSample "b1" "h1" "Bovine" "A" 0 0,
        mkSample "d1" "h2" "Deer" "A" 100 100] = some res →
      res.plotted = [mkSample "b1" "h1" "Bovine" "A" 0 0] ∧
      inBounds res.bounds (mkSample "d1" "h2" "Deer" "A" 100 100)) := by
  refine ⟨by decide, ?_⟩
  intro res h
  obtain ⟨h1, _, h3⟩ := c10_species_filter _ res h
  refine ⟨by rw [h1]; decide, ?_⟩
  exact h3 _ (by decide)

/-- C1: in the H1/H2/H3 scenario the code yields no segment at all, not
the H1-to-H3 segment the claim describes: the merged frame has only the
two movement rows (the concatenated current-herd centroid row is removed
again by `dropna(subset='Animal_ID')`, since those rows have no
`Animal_ID`), the unresolvable H2 row is then dropped by the geometry
filter, and a single remaining waypoint produces zero segments, so the
animal is not drawn. -/
theorem c1_terminal_waypoint_dropped :
    (get_moves_bytag exDfC1 exMovesC1 exCentC1).map List.length = some 2 ∧
    plot_moves (get_moves_bytag exDfC1 exMovesC1 exCentC1) = .ok [] := by
  refine ⟨by decide, by rfl⟩

/-- A list of rows that all carry geometry maps onto exactly one point
per row. -/
theorem filterMap_geometry_length (rows : List MRow)
    (h : ∀ r ∈ rows, r.geometry.isSome) :
    (rows.filterMap MRow.geometry).length = rows.length := by
  induction rows with
  | nil => rfl
  | cons r rest ih =>
    have hr := h r (List.mem_cons_self _ _)
    obtain ⟨p, hp⟩ := Option.isSome_iff_exists.mp hr
    rw [List.filterMap_cons, hp, List.length_cons]
    rw [ih fun q hq => h q (List.mem_cons_of_mem _ hq)]
    rfl

/-- Any row of any group produced by `groupByAnimal` is a row of the
input frame. -/
theorem groupByAnimal_rows_mem (ms : List MRow) (g : String × List MRow)
    (hg : g ∈ groupByAnimal ms) (r : MRow) (hr : r ∈ g.2) : r ∈ ms := by
  rw [groupByAnimal] at hg
  obtain ⟨k, _, rfl⟩ := List.mem_map.mp hg
  exact (List.mem_filter.mp hr).1

/-- If the palette is exhausted by the qualifying groups, the per-animal
loop of `plot_moves` raises. -/
theorem plotMovesLoop_error (colors : List Nat) (groups : List (String × List MRow)) :
    ∀ i : Nat, (∀ g ∈ groups, ∀ r ∈ g.2, r.geometry.isSome) →
      i ≤ colors.length →
      colors.length + 1 ≤ i + (groups.filter fun g => 2 ≤ g.2.length).length →
      plotMovesLoop colors i groups = .error "IndexError" := by
  induction groups with
  | nil =>
    intro i _ hi hq
    simp only [List.filter_nil, List.length_nil] at hq
    omega
  | cons g rest ih =>
    intro i hg hi hq
    have hmem : (g.2.filterMap MRow.geometry).length = g.2.length :=
      filterMap_geometry_length g.2 (hg g (List.mem_cons_self _ _))
    have hcl : ((get_coords_data ⟨g.2.filterMap MRow.geometry, none⟩).2).length
        = g.2.length - 1 := by
      rw [show (get_coords_data ⟨g.2.filterMap MRow.geometry, none⟩).2
          = (g.2.filterMap MRow.geometry).zip (g.2.filterMap MRow.geometry).tail from rfl]
      rw [length_zip_tail, hmem]
    have hrest : ∀ g2 ∈ rest, ∀ r ∈ g2.2, r.geometry.isSome :=
      fun g2 h2 => hg g2 (List.mem_cons_of_mem _ h2)
    rw [plotMovesLoop]
    by_cases hqual : 2 ≤ g.2.length
    · have hpos : 0 < ((get_coords_data ⟨g.2.filterMap MRow.geometry, none⟩).2).length := by
        omega
      rw [if_pos hpos]
      have hcount : ((g :: rest).filter fun g => 2 ≤ g.2.length).length
          = ((rest.filter fun g => 2 ≤ g.2.length)).length + 1 := by
        rw [List.filter_cons_of_pos (by simpa using hqual), List.length_cons]
      rcases hgi : colors.get? i with _ | c
      · rfl
      · obtain ⟨hlt, -⟩ := List.get?_eq_some.mp hgi
        have hrec := ih (i + 1) hrest (by omega) (by omega)
        show ((plotMovesLoop colors (i + 1) rest).map
          fun acc => (g.1, c,
            (get_coords_data ⟨g.2.filterMap MRow.geometry, none⟩).2) :: acc)
            = Except.error "IndexError"
        rw [hrec]
        rfl
    · have hpos : ¬ 0 < ((get_coords_data ⟨g.2.filterMap MRow.geometry, none⟩).2).length := by
        omega
      rw [if_neg hpos]
      have hcount : ((g :: rest).filter fun g => 2 ≤ g.2.length).length
          = ((rest.filter fun g => 2 ≤ g.2.length)).length := by
        rw [List.filter_cons_of_neg (by simpa using hqual)]
      exact ih i hrest hi (by omega)

/-- C9: `plot_moves` allocates a 30-color palette indexed by a counter
incremented once per animal with a non-empty trace; with more than 30 such
animals the palette access is out of range and the call raises an
IndexError instead of completing. -/
theorem c9_palette_overflow (ms : List MRow) (h : 31 ≤ movesQualifying ms) :
    plot_moves (some ms) = .error "IndexError" := by
  rw [plot_moves]
  apply plotMovesLoop_error
  · intro g hg r hr
    have := groupByAnimal_rows_mem _ g hg r hr
    exact (List.mem_filter.mp this).2
  · exact Nat.zero_le _
  · rw [movesQualifying] at h
    simpa [random_colors] using h

/-- Witness for C9: 31 animals with 2-waypoint traces overflow the
palette. -/
theorem c9_palette_overflow_witness :
    31 ≤ movesQualifying exMs31 ∧ plot_moves (some exMs31) = .error "IndexError" :=
  ⟨by decide, c9_palette_overflow exMs31 (by decide)⟩

/-- The head of the stable descending sort is the first-encountered
maximum. -/
theorem head_insertionSort_eq_firstMax (l : List (String × Nat)) :
    (List.insertionSort (fun a b => b.2 ≤ a.2) l).head? = firstMax l := by
  induction l with
  | nil => rfl
  | cons x xs ih =>
    rw [List.insertionSort, firstMax, ← ih]
    rcases hs : List.insertionSort (fun a b => b.2 ≤ a.2) xs with _ | ⟨b, t⟩
    · rw [hs]
      rfl
    · rw [hs]
      by_cases hbx : b.2 ≤ x.2
      · have hoi2 : List.orderedInsert (fun a b => b.2 ≤ a.2) x (b :: t) = x :: b :: t := by
          simp only [List.orderedInsert, if_pos hbx]
        rw [hoi2]
        show some x = if x.2 < b.2 then some b else some x
        rw [if_neg (by omega)]
      · have hoi : List.orderedInsert (fun a b => b.2 ≤ a.2) x (b :: t)
            = b :: List.orderedInsert (fun a b => b.2 ≤ a.2) x t := by
          simp only [List.orderedInsert, if_neg hbx]
        rw [hoi]
        show some b = if x.2 < b.2 then some b else some x
        rw [if_pos (by omega)]

theorem firstMax_eq_none (l : List (String × Nat)) : firstMax l = none ↔ l = [] := by
  cases l with
  | nil => simp [firstMax]
  | cons x xs =>
    rw [firstMax]
    constructor
    · intro h
      rcases hf : firstMax xs with _ | m <;> rw [hf] at h
      · simp at h
      · by_cases hlt : x.2 < m.2
        · simp [hlt] at h
        · simp [hlt] at h
    · intro h
      exact (List.cons_ne_nil _ _ h).elim

/-- `firstMax` returns an element of the list whose count component is
maximal. -/
theorem firstMax_mem_max (l : List (String × Nat)) :
    ∀ m, firstMax l = some m → m ∈ l ∧ ∀ p ∈ l, p.2 ≤ m.2 := by
  induction l with
  | nil => intro m h; exact absurd h (by simp [firstMax])
  | cons x xs ih =>
    intro m h
    rw [firstMax] at h
    rcases hf : firstMax xs with _ | m0 <;> rw [hf] at h
    · simp only [Option.some.injEq] at h
      subst h
      have hxs : xs = [] := (firstMax_eq_none xs).mp hf
      subst hxs
      exact ⟨List.mem_cons_self _ _, by simp⟩
    · obtain ⟨hmem0, hmax0⟩ := ih m0 hf
      by_cases hlt : x.2 < m0.2
      · simp only [if_pos hlt, Option.some.injEq] at h
        subst h
        refine ⟨List.mem_cons_of_mem _ hmem0, ?_⟩
        intro p hp
        rcases List.mem_cons.mp hp with h1 | h1
        · subst h1; omega
        · exact hmax0 p h1
      · simp only [if_neg hlt, Option.some.injEq] at h
        subst h
        refine ⟨List.mem_cons_self _ _, ?_⟩
        intro p hp
        rcases List.mem_cons.mp hp with h1 | h1
        · subst h1; exact le_refl _
        · have := hmax0 p h1
          omega

theorem aggtop_eq_firstMax (l : List String) :
    aggtop l = (firstMax (countsInOrder l)).map Prod.fst := by
  rw [aggtop, value_counts, head_insertionSort_eq_firstMax]

theorem countsInOrder_eq_nil (l : List String) : countsInOrder l = [] ↔ l = [] := by
  cases l with
  | nil => simp [countsInOrder_nil]
  | cons x xs => rw [countsInOrder_cons]; simp

theorem aggtop_eq_none_iff (l : List String) : aggtop l = none ↔ l = [] := by
  rw [aggtop_eq_firstMax]
  rw [Option.map_eq_none']
  rw [firstMax_eq_none, countsInOrder_eq_nil]

/-- The dominant value `aggtop` picks occurs in the column, has maximal
occurrence count, and is the first-encountered value among the maxima. -/
theorem aggtop_dominant (l : List String) (v : String) (h : aggtop l = some v) :
    v ∈ l ∧ (∀ w, l.count w ≤ l.count v) ∧
      firstMax (countsInOrder l) = some (v, l.count v) := by
  rw [aggtop_eq_firstMax] at h
  rcases hf : firstMax (countsInOrder l) with _ | m <;> rw [hf] at h
  · exact Option.noConfusion h
  · simp only [Option.map_some', Option.some.injEq] at h
    subst h
    obtain ⟨hmem, hmax⟩ := firstMax_mem_max _ m hf
    obtain ⟨hvl, hc⟩ := countsInOrder_mem l m.1 m.2 hmem
    refine ⟨hvl, ?_, ?_⟩
    · intro w
      by_cases hw : w ∈ l
      · have := hmax _ (countsInOrder_complete l w hw)
        omega
      · rw [List.count_eq_zero_of_not_mem hw]
        exact Nat.zero_le _
    · rw [← hc]

theorem map_snd_enumFrom (l : List String) : ∀ n : Nat, (l.enumFrom n).map Prod.snd = l := by
  induction l with
  | nil => intro n; rfl
  | cons x xs ih =>
    intro n
    rw [List.enumFrom, List.map_cons, ih]

/-- The key set of the modelled color mapping is the distinct category
values of the points. -/
theorem color_mapping_keys (pts : List HexPt) :
    (get_color_mapping pts).map Prod.fst
      = List.insertionSort (fun a b : String => a ≤ b) (pts.map HexPt.cat).dedup := by
  rw [get_color_mapping, List.map_map]
  exact map_snd_enumFrom _ 0

theorem lookupColor_total (v : String) (m : List (String × Nat))
    (h : v ∈ m.map Prod.fst) : ∃ c, lookupColor v m = some c := by
  induction m with
  | nil => exact absurd h (by simp)
  | cons kc rest ih =>
    rw [lookupColor]
    by_cases hk : kc.1 = v
    · exact ⟨kc.2, by rw [if_pos hk]⟩
    · rw [if_neg hk]
      apply ih
      rcases List.mem_map.mp h with ⟨p, hp, hpv⟩
      rcases List.mem_cons.mp hp with h1 | h1
      · exact absurd (h1 ▸ hpv) hk
      · exact List.mem_map.mpr ⟨p, h1, hpv⟩

/-- Every category value of the point set receives a color. -/
theorem color_covers (pts : List HexPt) (v : String) (h : v ∈ pts.map HexPt.cat) :
    ∃ c, lookupColor v (get_color_mapping pts) = some c := by
  apply lookupColor_total
  rw [color_mapping_keys, List.mem_insertionSort, List.mem_dedup]
  exact h

theorem cellCats_sub (pts : List HexPt) (c : GridCell) (v : String)
    (h : v ∈ cellCats pts c) : v ∈ pts.map HexPt.cat := by
  rw [cellCats] at h
  obtain ⟨p, hp, hpv⟩ := List.mem_map.mp h
  exact List.mem_map.mpr ⟨p, (List.mem_filter.mp hp).1, hpv⟩

theorem assignDominant_fst_aux (pts : List HexPt) :
    ∀ l : List (Nat × GridCell),
      ((l.filterMap fun ic => (aggtop (cellCats pts ic.2)).map fun v => (ic.1, v)).map
          Prod.fst)
        = (l.filter fun ic => !(cellCats pts ic.2).isEmpty).map Prod.fst := by
  intro l
  induction l with
  | nil => rfl
  | cons ic t ih =>
    rcases hag : aggtop (cellCats pts ic.2) with _ | v
    · have hemp : (cellCats pts ic.2).isEmpty = true := by
        rw [List.isEmpty_iff]
        exact (aggtop_eq_none_iff _).mp hag
      rw [List.filterMap_cons_none (by rw [hag]; rfl)]
      rw [List.filter_cons_of_neg (by simp [hemp])]
      exact ih
    · have hne : ¬ (cellCats pts ic.2).isEmpty = true := by
        rw [List.isEmpty_iff]
        intro hcontra
        rw [hcontra] at hag
        exact Option.noConfusion ((show aggtop [] = none from rfl) ▸ hag)
      rw [List.filterMap_cons_some (by rw [hag]; rfl)]
      rw [List.filter_cons_of_pos (by simpa using hne), List.map_cons, List.map_cons, ih]

theorem renderedCells_fst_aux (pts : List HexPt) :
    ∀ l : List (Nat × GridCell),
      ((l.filterMap fun ic =>
          match aggtop (cellCats pts ic.2) with
          | none => none
          | some v => (lookupColor v (get_color_mapping pts)).map
              fun clr => (ic.1, clr)).map Prod.fst)
        = ((l.filterMap fun ic => (aggtop (cellCats pts ic.2)).map
            fun v => (ic.1, v)).map Prod.fst) := by
  intro l
  induction l with
  | nil => rfl
  | cons ic t ih =>
    rcases hag : aggtop (cellCats pts ic.2) with _ | v
    · rw [List.filterMap_cons_none (by rw [hag])]
      rw [List.filterMap_cons_none (by rw [hag]; rfl)]
      exact ih
    · have hv : v ∈ cellCats pts ic.2 := (aggtop_dominant _ v hag).1
      obtain ⟨clr, hclr⟩ := color_covers pts v (cellCats_sub pts ic.2 v hv)
      rw [List.filterMap_cons_some (b := (ic.1, clr)) (by rw [hag]; simp [hclr])]
      rw [List.filterMap_cons_some (by rw [hag]; rfl)]
      rw [List.map_cons, List.map_cons, ih]

/-- C2: for every point set, grid and category column, the
dominant-category mapping of `plot_hexbin` covers exactly the grid cells
containing at least one point (in grid order); each such cell is mapped
to the category value with the highest occurrence count among its points,
ties broken by first-encountered value in the join order; and the cells
rendered with a category color are exactly the cells of the mapping — no
cell with zero joined points is rendered.  Instantiating `pts` with
`hexPrefilter pts` gives both components of `plot_hexbin`. -/
theorem c2_hexbin_dominant (pts : List HexPt) (grid : List GridCell) :
    ((assignDominant pts grid).map Prod.fst
      = (grid.enum.filter fun ic => !(cellCats pts ic.2).isEmpty).map Prod.fst) ∧
    (∀ i v, (i, v) ∈ assignDominant pts grid →
      ∃ c, grid[i]? = some c ∧ v ∈ cellCats pts c ∧
        (∀ w, (cellCats pts c).count w ≤ (cellCats pts c).count v) ∧
        firstMax (countsInOrder (cellCats pts c))
          = some (v, (cellCats pts c).count v)) ∧
    (renderedCells pts grid).map Prod.fst = (assignDominant pts grid).map Prod.fst := by
  refine ⟨assignDominant_fst_aux pts grid.enum, ?_, renderedCells_fst_aux pts grid.enum⟩
  intro i v h
  rw [assignDominant] at h
  obtain ⟨ic, hic, hf⟩ := List.mem_filterMap.mp h
  rcases hag : aggtop (cellCats pts ic.2) with _ | v0 <;> rw [hag] at hf
  · exact Option.noConfusion hf
  · simp only [Option.map_some', Option.some.injEq] at hf
    rw [Prod.mk.injEq] at hf
    obtain ⟨hi, hv⟩ := hf
    subst hi
    subst hv
    obtain ⟨hmem, hmax, hfm⟩ := aggtop_dominant _ _ hag
    exact ⟨ic.2, (List.mem_enum_iff_getElem?.mp hic), hmem, hmax, hfm⟩

/-- Witness for C2: on the concrete points and grid, the mapping covers
exactly cells 0 and 1 (cell 2 holds no point), cell 0 is dominated by
"B" (count 2 beats "A" with 1), and the rendered cells coincide with the
mapping's cells. -/
theorem c2_hexbin_dominant_witness :
    assignDominant exPts exGrid = [(0, "B"), (1, "C")] ∧
    (∃ c, exGrid[0]? = some c ∧ "B" ∈ cellCats exPts c ∧
      (∀ w, (cellCats exPts c).count w ≤ (cellCats exPts c).count "B") ∧
      firstMax (countsInOrder (cellCats exPts c))
        = some ("B", (cellCats exPts c).count "B")) ∧
    (renderedCells exPts exGrid).map Prod.fst = [0, 1] := by
  obtain ⟨h1, h2, h3⟩ := c2_hexbin_dominant exPts exGrid
  refine ⟨by decide, h2 0 "B" (by decide), ?_⟩
  rw [h3, h1]
  decide
